import Mathlib

/-!
Verification development for the webdocx crawl-and-fetch subsystem.

The definitions below are a shallow embedding of the Python sources:
  * `src/webdocx/tools/scraper.py`   (`crawl_docs`)
  * `src/webdocx/adapters/scraper.py` (`ScraperAdapter.fetch`,
    `ScraperAdapter.get_same_domain_links`)
  * `src/webdocx/tools/advanced.py`  (`extract_links`, `monitor_changes`)

Network effects are modelled by explicit oracle functions (what a fetch of a
given URL would return, which anchors an HTML document contains); everything
else — control flow, filtering, queueing, hashing, retry/backoff — is
translated statement by statement from the source.
-/

namespace Webdocx

/-! ## Python `str` helpers

`charsContain s pat` is Python's substring test `pat in s` on the underlying
character lists. -/

/-- Substring occurrence test on character lists: Python `pat in s`. -/
def charsContain (s pat : List Char) : Bool :=
  match s with
  | [] => pat.isEmpty
  | _ :: rest => pat.isPrefixOf s || charsContain rest pat

/-- Python substring test `pat in s` on strings. -/
def containsSub (s pat : String) : Bool :=
  charsContain s.data pat.data

/-- Python `str.lower()` (ASCII case folding, which covers every string the
sources lower-case). -/
def pyLower (s : String) : String :=
  String.mk (s.data.map Char.toLower)

/-- Python `str.strip()`: drop leading and trailing whitespace. -/
def pyStrip (s : String) : String :=
  String.mk (((s.data.dropWhile Char.isWhitespace).reverse.dropWhile
    Char.isWhitespace).reverse)

/-! ## `urllib.parse.urlparse` (scheme / netloc / path components)

Model of the stdlib URL splitter, restricted to the three components the
sources consult: `scheme` (lower-cased), `netloc` (authority after `//`), and
`path` (up to `?` or `#`).  Query and fragment are discarded exactly as the
sources do. -/

/-- Characters allowed in a URL scheme (after the leading letter). -/
def isSchemeChar (c : Char) : Bool :=
  c.isAlphanum || c == '+' || c == '-' || c == '.'

/-- Split a leading `scheme:` off a URL, as CPython's `urlsplit` does: the
text before the first `:` is a scheme iff it is non-empty, starts with a
letter, and consists of scheme characters.  Returns the (lower-cased) scheme
and the remaining characters. -/
def splitScheme (cs : List Char) : String × List Char :=
  match cs.findIdx? (· == ':') with
  | some i =>
    let hd := cs.take i
    if 0 < i && (match hd with | c :: _ => c.isAlpha | [] => false)
        && hd.all isSchemeChar then
      (String.mk (hd.map Char.toLower), cs.drop (i + 1))
    else ("", cs)
  | none => ("", cs)

/-- Take characters until one of `delims` appears; return the taken part and
the rest (the delimiter, when present, stays in the rest). -/
def takeUntilDelims (delims : List Char) (cs : List Char) : List Char × List Char :=
  (cs.takeWhile (fun c => !(delims.contains c)),
   cs.dropWhile (fun c => !(delims.contains c)))

/-- Split a leading `//netloc` off the scheme-free remainder of a URL: the
authority extends to the next `/`, `?` or `#`. -/
def splitNetloc (cs : List Char) : String × List Char :=
  match cs with
  | '/' :: '/' :: rest =>
    let p := takeUntilDelims ['/', '?', '#'] rest
    (String.mk p.1, p.2)
  | _ => ("", cs)

/-- The three URL components used by the sources. -/
structure UrlParts where
  scheme : String
  netloc : String
  path : String
deriving DecidableEq

/-- Model of `urllib.parse.urlparse`, reduced to scheme, netloc and path. -/
def urlparse (url : String) : UrlParts :=
  let s1 := splitScheme url.data
  let s2 := splitNetloc s1.2
  ⟨s1.1, s2.1, String.mk (takeUntilDelims ['?', '#'] s2.2).1⟩

example : urlparse "https://docs.example.com/install?q=1#top" =
    ⟨"https", "docs.example.com", "/install"⟩ := by decide

example : urlparse "http://a/r" = ⟨"http", "a", "/r"⟩ := by decide

example : urlparse "nohost" = ⟨"", "", "nohost"⟩ := by decide

/-! ## Fetch pipeline — `ScraperAdapter.fetch`
(`src/webdocx/adapters/scraper.py`, lines 30–84)

A fetch attempt either produces a `Doc` (title and markdown content) or
raises; the per-attempt outcome is an oracle `Nat → Option Doc` (attempt
number ↦ result), which absorbs the crawl4ai-then-httpx strategy cascade:
an attempt succeeds iff some strategy succeeded. -/

/-- A fetched page as the crawler consumes it: title and markdown content
(the `Document` model's `url`/`fetched_at` fields are not consulted by the
properties below). -/
structure Doc where
  title : String
  content : String
deriving DecidableEq

/-- Observable result of the fetch pipeline: how many attempts were made,
which backoff delays were slept (in order), and the final outcome
(`none` = `ScrapingError` raised). -/
structure FetchResult where
  attempts : Nat
  delays : List Nat
  outcome : Option Doc
deriving DecidableEq

/-- The `for attempt in range(retry + 1)` loop of `ScraperAdapter.fetch`:
`attempt` is the current attempt index, the second argument the number of
remaining loop iterations.  On failure at `attempt == retry` (no iteration
remaining after this one) the error is raised; otherwise the loop sleeps
`2 ** attempt` and retries. -/
def fetchGo (attemptDoc : Nat → Option Doc) : Nat → Nat → FetchResult
  | attempt, 0 => ⟨attempt, [], none⟩
  | attempt, remaining + 1 =>
    match attemptDoc attempt with
    | some d => ⟨attempt + 1, [], some d⟩
    | none =>
      if remaining = 0 then ⟨attempt + 1, [], none⟩
      else
        let r := fetchGo attemptDoc (attempt + 1) remaining
        ⟨r.attempts, 2 ^ attempt :: r.delays, r.outcome⟩

/-- URL validation performed by `ScraperAdapter.fetch` before any attempt:
non-blank, and `urlparse` yields a scheme and a netloc. -/
def validUrl (url : String) : Bool :=
  pyStrip url != "" && (urlparse url).scheme != "" && (urlparse url).netloc != ""

/-- `ScraperAdapter.fetch(url, retry=retry)`: invalid URLs fail immediately
with zero attempts; otherwise the retry loop runs `retry + 1` iterations. -/
def fetchPipeline (attemptDoc : Nat → Option Doc) (url : String) (retry : Nat) :
    FetchResult :=
  if pyStrip url = "" then ⟨0, [], none⟩
  else if (urlparse url).scheme = "" || (urlparse url).netloc = "" then ⟨0, [], none⟩
  else fetchGo attemptDoc 0 (retry + 1)

example : fetchPipeline (fun _ => none) "http://a/r" 2 = ⟨3, [1, 2], none⟩ := by decide

example : fetchPipeline (fun _ => none) "" 2 = ⟨0, [], none⟩ := by decide

/-! ## Link extraction

`ScraperAdapter.get_same_domain_links(html, base_url)`
(`src/webdocx/adapters/scraper.py`, lines 302–322) and the standalone
`extract_links` tool (`src/webdocx/tools/advanced.py`, lines 159–223).

HTML parsing is abstracted: an HTML document is represented by the sequence
of `href` attributes of its anchors, in document order (`soup.find_all("a",
href=True)`); for `extract_links` each anchor also carries its text.
`urllib.parse.urljoin` is abstracted as a resolver argument `join`; on an
`href` that is itself an absolute URL with a scheme, the real `urljoin`
returns the `href` unchanged, which is what the concrete instantiations
below use. -/

/-- One step of `get_same_domain_links`: resolve the anchor against the base
URL and keep it iff it is same-domain, `http`/`https`, and has a non-empty
path; the kept form is the canonical `scheme://netloc/path` with query and
fragment stripped. -/
def cleanLink (join : String → String → String) (base_url href : String) :
    Option String :=
  let p := urlparse (join base_url href)
  if p.netloc = (urlparse base_url).netloc ∧
      (p.scheme = "http" ∨ p.scheme = "https") ∧ p.path ≠ "" then
    some (p.scheme ++ "://" ++ p.netloc ++ p.path)
  else none

/-- `ScraperAdapter.get_same_domain_links`: scan the anchors in document
order, keep the clean same-domain links, appending each one unless it is
already in the accumulated list. -/
def getSameDomainLinks (join : String → String → String) (base_url : String)
    (anchors : List String) : List String :=
  anchors.foldl (fun links href =>
    match cleanLink join base_url href with
    | none => links
    | some clean => if clean ∈ links then links else links ++ [clean]) []

/-- Spec-side helper (the contract's words, ``deduplicated by absolute URL,
order of first appearance preserved``): keep the first occurrence of each
element, dropping elements already seen. -/
def keepFirstAux (seen : List String) : List String → List String
  | [] => []
  | x :: xs =>
    if x ∈ seen then keepFirstAux seen xs
    else x :: keepFirstAux (x :: seen) xs

/-- First-appearance deduplication of a list. -/
def keepFirst (l : List String) : List String :=
  keepFirstAux [] l

/-- The `extract_links` anchor scan (`advanced.py`, lines 190–200): resolve
each anchor, keep `http`/`https` ones, and split them into internal
(same-domain) and external `(absoluteURL, anchorText)` records; an anchor
with empty text falls back to its `href` (Python `text or href`). -/
def extractLinksSplit (join : String → String → String) (url : String)
    (anchors : List (String × String)) :
    List (String × String) × List (String × String) :=
  anchors.foldl (fun acc a =>
    let text := if a.2 ≠ "" then a.2 else a.1
    let absolute_url := join url a.1
    let p := urlparse absolute_url
    if p.scheme = "http" ∨ p.scheme = "https" then
      if p.netloc = (urlparse url).netloc then
        (acc.1 ++ [(absolute_url, text)], acc.2)
      else (acc.1, acc.2 ++ [(absolute_url, text)])
    else acc) ([], [])

/-- First-occurrence deduplication of `(url, text)` pairs — the effect of
Python's `set(...)` on the link records (set membership is by the whole
pair). -/
def keepFirstPairAux (seen : List (String × String)) :
    List (String × String) → List (String × String)
  | [] => []
  | x :: xs =>
    if x ∈ seen then keepFirstPairAux seen xs
    else x :: keepFirstPairAux (x :: seen) xs

/-- Lexicographic strict order on character lists — Python `str` `<`
(code-point comparison). -/
def charListLT : List Char → List Char → Bool
  | [], [] => false
  | [], _ :: _ => true
  | _ :: _, [] => false
  | a :: as, b :: bs =>
    if a < b then true else if b < a then false else charListLT as bs

/-- Comparison key used by `extract_links`: `sorted(..., key=lambda x:
x[1].lower())`, anchor text lower-cased, compared lexicographically. -/
def textKeyLE (a b : String × String) : Bool :=
  !(charListLT (pyLower b.2).data (pyLower a.2).data)

/-- Insert into a list sorted by `textKeyLE` (stable insertion sort models
Python's stable `sorted`). -/
def insertByKey (x : String × String) : List (String × String) → List (String × String)
  | [] => [x]
  | y :: ys => if textKeyLE x y then x :: y :: ys else y :: insertByKey x ys

/-- Stable sort by anchor-text key. -/
def sortByKey (l : List (String × String)) : List (String × String) :=
  l.foldr insertByKey []

/-- The internal-link list of the `extract_links` report
(`advanced.py`, line 209): `sorted(set(internal_links), key=lambda x:
x[1].lower())`.  The Python `set` has no specified order; it is modelled by
first-occurrence deduplication, which the subsequent sort makes irrelevant
whenever the anchor-text keys are distinct. -/
def extractLinksInternal (join : String → String → String) (url : String)
    (anchors : List (String × String)) : List (String × String) :=
  sortByKey (keepFirstPairAux [] (extractLinksSplit join url anchors).1)

example :
    getSameDomainLinks (fun _ h => h) "https://e.com/"
      ["https://e.com/a?x=1", "https://e.com/a#f", "https://e.com/",
       "http://other.org/b", "mailto:x@e.com", "https://e.com/c"] =
      ["https://e.com/a", "https://e.com/", "https://e.com/c"] := by decide

example :
    extractLinksInternal (fun _ h => h) "https://e.com/"
      [("https://e.com/a", "B"), ("https://e.com/a", "A")] =
      [("https://e.com/a", "A"), ("https://e.com/a", "B")] := by decide

/-! ## Content digest — `monitor_changes`
(`src/webdocx/tools/advanced.py`, lines 226–274)

`monitor_changes` hashes the fetched content with
`hashlib.sha256(content.encode()).hexdigest()[:16]`.  SHA-256 is embedded in
full over `Nat` (words reduced mod `2^32`), together with UTF-8 encoding and
hex formatting, so the digest is the genuine one. -/

/-- `2^32`, the word modulus of SHA-256. -/
def w32 : Nat := 4294967296

/-- Rotate the 32-bit word `x` right by `n` positions. -/
def rotr (n x : Nat) : Nat := ((x >>> n) ||| (x <<< (32 - n))) % w32

/-- Bitwise complement on 32 bits. -/
def bnot32 (x : Nat) : Nat := 4294967295 ^^^ x

/-- SHA-256 choice function. -/
def shaCh (e f g : Nat) : Nat := (e &&& f) ^^^ (bnot32 e &&& g)

/-- SHA-256 majority function. -/
def shaMaj (a b c : Nat) : Nat := (a &&& b) ^^^ (a &&& c) ^^^ (b &&& c)

/-- SHA-256 Σ₀. -/
def bigSigma0 (a : Nat) : Nat := rotr 2 a ^^^ rotr 13 a ^^^ rotr 22 a

/-- SHA-256 Σ₁. -/
def bigSigma1 (e : Nat) : Nat := rotr 6 e ^^^ rotr 11 e ^^^ rotr 25 e

/-- SHA-256 σ₀. -/
def smallSigma0 (x : Nat) : Nat := rotr 7 x ^^^ rotr 18 x ^^^ (x >>> 3)

/-- SHA-256 σ₁. -/
def smallSigma1 (x : Nat) : Nat := rotr 17 x ^^^ rotr 19 x ^^^ (x >>> 10)

/-- The 64 SHA-256 round constants (FIPS 180-4, written in decimal). -/
def shaK : Array Nat := #[
  1116352408, 1899447441, 3049323471, 3921009573, 961987163,
  1508970993, 2453635748, 2870763221, 3624381080, 310598401,
  607225278, 1426881987, 1925078388, 2162078206, 2614888103,
  3248222580, 3835390401, 4022224774, 264347078, 604807628,
  770255983, 1249150122, 1555081692, 1996064986, 2554220882,
  2821834349, 2952996808, 3210313671, 3336571891, 3584528711,
  113926993, 338241895, 666307205, 773529912, 1294757372,
  1396182291, 1695183700, 1986661051, 2177026350, 2456956037,
  2730485921, 2820302411, 3259730800, 3345764771, 3516065817,
  3600352804, 4094571909, 275423344, 430227734, 506948616,
  659060556, 883997877, 958139571, 1322822218, 1537002063,
  1747873779, 1955562222, 2024104815, 2227730452, 2361852424,
  2428436474, 2756734187, 3204031479, 3329325298]

/-- The eight working variables of the SHA-256 compression function. -/
structure Hash8 where
  a : Nat
  b : Nat
  c : Nat
  d : Nat
  e : Nat
  f : Nat
  g : Nat
  h : Nat
deriving DecidableEq

/-- Initial SHA-256 state (FIPS 180-4, written in decimal). -/
def initH : Hash8 :=
  ⟨1779033703, 3144134277, 1013904242, 2773480762,
   1359893119, 2600822924, 528734635, 1541459225⟩

/-- Message schedule of one 64-byte block: 16 big-endian words extended to
64. -/
def msgWords (block : List Nat) : Array Nat :=
  let w0 := ((List.range 16).map (fun i =>
    block.getD (4 * i) 0 * 16777216 + block.getD (4 * i + 1) 0 * 65536 +
    block.getD (4 * i + 2) 0 * 256 + block.getD (4 * i + 3) 0)).toArray
  (List.range 48).foldl (fun w j =>
    let i := j + 16
    w.push ((smallSigma1 w[i - 2]! + w[i - 7]! + smallSigma0 w[i - 15]! +
      w[i - 16]!) % w32)) w0

/-- One round of the compression function. -/
def shaRound (wArr : Array Nat) (st : Hash8) (i : Nat) : Hash8 :=
  let t1 := (st.h + bigSigma1 st.e + shaCh st.e st.f st.g + shaK[i]! + wArr[i]!) % w32
  let t2 := (bigSigma0 st.a + shaMaj st.a st.b st.c) % w32
  ⟨(t1 + t2) % w32, st.a, st.b, st.c, (st.d + t1) % w32, st.e, st.f, st.g⟩

/-- The 64-round compression of one block. -/
def compress (wArr : Array Nat) (st : Hash8) : Hash8 :=
  (List.range 64).foldl (shaRound wArr) st

/-- Add two hash states word-wise mod `2^32`. -/
def addH (x y : Hash8) : Hash8 :=
  ⟨(x.a + y.a) % w32, (x.b + y.b) % w32, (x.c + y.c) % w32, (x.d + y.d) % w32,
   (x.e + y.e) % w32, (x.f + y.f) % w32, (x.g + y.g) % w32, (x.h + y.h) % w32⟩

/-- SHA-256 padding: append `0x80`, zeros to 56 mod 64, then the bit length
as eight big-endian bytes. -/
def padBytes (msg : List Nat) : List Nat :=
  let len := msg.length
  msg ++ 128 :: List.replicate ((119 - len % 64) % 64) 0 ++
    (List.range 8).map (fun i => ((8 * len) >>> (8 * (7 - i))) % 256)

/-- Split a byte list into 64-byte blocks (fuel-indexed structural
recursion; the fuel `l.length` always suffices since each step drops 64 ≥ 1
elements of a non-empty list). -/
def chunksAux : Nat → List Nat → List (List Nat)
  | 0, _ => []
  | _, [] => []
  | fuel + 1, x :: rest => (x :: rest).take 64 :: chunksAux fuel ((x :: rest).drop 64)

/-- 64-byte blocks of a byte list. -/
def chunks64 (l : List Nat) : List (List Nat) :=
  chunksAux l.length l

/-- Serialize a hash state as 32 big-endian bytes. -/
def hashToBytes (st : Hash8) : List Nat :=
  [st.a >>> 24 % 256, st.a >>> 16 % 256, st.a >>> 8 % 256, st.a % 256,
   st.b >>> 24 % 256, st.b >>> 16 % 256, st.b >>> 8 % 256, st.b % 256,
   st.c >>> 24 % 256, st.c >>> 16 % 256, st.c >>> 8 % 256, st.c % 256,
   st.d >>> 24 % 256, st.d >>> 16 % 256, st.d >>> 8 % 256, st.d % 256,
   st.e >>> 24 % 256, st.e >>> 16 % 256, st.e >>> 8 % 256, st.e % 256,
   st.f >>> 24 % 256, st.f >>> 16 % 256, st.f >>> 8 % 256, st.f % 256,
   st.g >>> 24 % 256, st.g >>> 16 % 256, st.g >>> 8 % 256, st.g % 256,
   st.h >>> 24 % 256, st.h >>> 16 % 256, st.h >>> 8 % 256, st.h % 256]

/-- SHA-256 of a byte list, as 32 bytes. -/
def sha256 (msg : List Nat) : List Nat :=
  hashToBytes ((chunks64 (padBytes msg)).foldl
    (fun st blk => addH st (compress (msgWords blk) st)) initH)

/-- Lower-case hex digit for a value below 16. -/
def hexChar (n : Nat) : Char :=
  if n < 10 then Char.ofNat (48 + n) else Char.ofNat (87 + n)

/-- Hex characters of a byte list (two digits per byte). -/
def hexList : List Nat → List Char
  | [] => []
  | b :: bs => hexChar (b / 16) :: hexChar (b % 16) :: hexList bs

/-- `hashlib`-style hexdigest of a byte list. -/
def hexString (l : List Nat) : String :=
  String.mk (hexList l)

/-- UTF-8 encoding of one character, as `Nat` bytes — Python
`str.encode()`. -/
def utf8EncodeCharNat (c : Char) : List Nat :=
  let n := c.toNat
  if n < 128 then [n]
  else if n < 2048 then [192 + n / 64, 128 + n % 64]
  else if n < 65536 then [224 + n / 4096, 128 + n / 64 % 64, 128 + n % 64]
  else [240 + n / 262144, 128 + n / 4096 % 64, 128 + n / 64 % 64, 128 + n % 64]

/-- UTF-8 bytes of a string. -/
def utf8Bytes (s : String) : List Nat :=
  s.data.foldr (fun c acc => utf8EncodeCharNat c ++ acc) []

set_option maxRecDepth 8192 in
/-- NIST test vector: SHA-256 of the empty message. -/
theorem sha256_vector_empty :
    hexString (sha256 []) =
      "e3b0c44298fc1c149afbf4c8996fb92427ae41e4649b934ca495991b7852b855" := by
  decide

set_option maxRecDepth 8192 in
/-- NIST test vector: SHA-256 of `"abc"`. -/
theorem sha256_vector_abc :
    hexString (sha256 (utf8Bytes "abc")) =
      "ba7816bf8f01cfea414140de5dae2223b00361a396177a9cb410ff61f20015ad" := by
  decide

/-- The digest computed by `monitor_changes` (line 246):
`hashlib.sha256(current_content.encode()).hexdigest()[:16]`. -/
def contentDigest (s : String) : String :=
  String.mk ((hexList (sha256 (utf8Bytes s))).take 16)

/-- The three outcomes reported by the `monitor_changes` status section. -/
inductive ChangeStatus where
  | baseline
  | unchanged
  | changed
deriving DecidableEq

/-- Status chosen by `monitor_changes(url, previous_content)` on a
successful fetch (lines 255–263).  Note the Python guard is the truthiness
test `if previous_content:`, so both `None` and the empty string take the
baseline branch. -/
def monitorStatus (content : String) (previous : Option String) : ChangeStatus :=
  let current_hash := contentDigest content
  match previous with
  | none => ChangeStatus.baseline
  | some p =>
    if p = "" then ChangeStatus.baseline
    else if p = current_hash then ChangeStatus.unchanged
    else ChangeStatus.changed

/-! ## Crawl — `crawl_docs`
(`src/webdocx/tools/scraper.py`, lines 49–155)

The network is an oracle `Web`: `fetch url` is what `_adapter.fetch(url,
retry=1)` would produce (`none` = any exception), and `links url` is the
result of the link-discovery block (`httpx` GET plus
`get_same_domain_links`) for that URL — `[]` when that block fails, since
the surrounding `try` also swallows its exceptions after the page was
already appended. -/

/-- Network oracle for one crawl. -/
structure Web where
  fetch : String → Option Doc
  links : String → List String

/-- The crawl loop's mutable state: `visited`, `to_visit`, `pages`
(`(url, title, content)` in fetch order), plus a ghost `trace` recording
each URL on which a fetch was attempted (entered the `try` block), in
order. -/
structure CrawlState where
  visited : List String
  toVisit : List String
  pages : List (String × String × String)
  trace : List String
deriving DecidableEq

/-- The skip-list of `crawl_docs` (lines 83–87). -/
def skipTokens : List String := ["login", "signup", "download", "print", ".pdf", ".zip"]

/-- Skip-list test: `any(skip in url.lower() for skip in [...])`. -/
def shouldSkip (url : String) : Bool :=
  skipTokens.any (fun t => containsSub (pyLower url) t)

/-- The documentation hint tokens of `crawl_docs` (line 118). -/
def docHints : List String := ["doc", "guide", "tutorial", "reference"]

/-- Priority test (lines 116–119): `any(doc_hint in link.lower() for
doc_hint in [...])` — note it inspects the whole URL, not just its path. -/
def isDocHint (link : String) : Bool :=
  docHints.any (fun t => containsSub (pyLower link) t)

/-- Offer one discovered link to the frontier (lines 105–122): drop it if
already visited or queued; drop external links unless `follow_external`;
insert doc-hinted links at the head of `to_visit`, others at the tail. -/
def enqueueLink (root_domain : String) (follow_external : Bool)
    (visited : List String) (tv : List String) (link : String) : List String :=
  if link ∈ visited ∨ link ∈ tv then tv
  else if follow_external = false ∧ (urlparse link).netloc ≠ root_domain then tv
  else if isDocHint link then link :: tv
  else tv ++ [link]

/-- Offer a batch of links in document order, threading the queue (Python
mutates `to_visit` inside the `for link in links` loop, so later links are
deduplicated against earlier insertions). -/
def enqueueLinks (root_domain : String) (follow_external : Bool)
    (visited : List String) (tv : List String) (links : List String) : List String :=
  links.foldl (enqueueLink root_domain follow_external visited) tv

/-- One iteration of the `while to_visit and len(visited) < max_pages` loop
(lines 76–126); `none` means the loop condition failed and the loop exits.
On a successful fetch the URL is marked visited and its page appended; on a
fetch exception the URL is dropped *without* being marked visited. -/
def crawlStep (web : Web) (root_domain : String) (follow_external : Bool)
    (max_pages : Nat) (s : CrawlState) : Option CrawlState :=
  match s.toVisit with
  | [] => none
  | url :: rest =>
    if s.visited.length < max_pages then
      if url ∈ s.visited then some { s with toVisit := rest }
      else if shouldSkip url then some { s with toVisit := rest }
      else
        match web.fetch url with
        | none => some { s with toVisit := rest, trace := s.trace ++ [url] }
        | some d =>
          let v2 := s.visited ++ [url]
          some { visited := v2,
                 toVisit := enqueueLinks root_domain follow_external v2 rest
                   (web.links url),
                 pages := s.pages ++ [(url, d.title, d.content)],
                 trace := s.trace ++ [url] }
    else none

/-- Case analysis of a successful `crawlStep`. -/
theorem crawlStep_some {web : Web} {rd : String} {fe : Bool} {mp : Nat}
    {s s2 : CrawlState} (h : crawlStep web rd fe mp s = some s2) :
    ∃ url rest, s.toVisit = url :: rest ∧ s.visited.length < mp ∧
      ((url ∈ s.visited ∧ s2 = { s with toVisit := rest }) ∨
       (url ∉ s.visited ∧ shouldSkip url = true ∧
         s2 = { s with toVisit := rest }) ∨
       (url ∉ s.visited ∧ shouldSkip url = false ∧ web.fetch url = none ∧
         s2 = { s with toVisit := rest, trace := s.trace ++ [url] }) ∨
       (∃ d, url ∉ s.visited ∧ shouldSkip url = false ∧
         web.fetch url = some d ∧
         s2 = { visited := s.visited ++ [url],
                toVisit := enqueueLinks rd fe (s.visited ++ [url]) rest
                  (web.links url),
                pages := s.pages ++ [(url, d.title, d.content)],
                trace := s.trace ++ [url] })) := by
  match htv : s.toVisit with
  | [] => rw [crawlStep, htv] at h; exact absurd h (by simp)
  | url :: rest =>
    rw [crawlStep, htv] at h
    dsimp only at h
    refine ⟨url, rest, rfl, ?_⟩
    by_cases hlt : s.visited.length < mp
    · rw [if_pos hlt] at h
      refine ⟨hlt, ?_⟩
      by_cases hv : url ∈ s.visited
      · rw [if_pos hv] at h
        exact Or.inl ⟨hv, (Option.some_inj.mp h).symm⟩
      · rw [if_neg hv] at h
        by_cases hsk : shouldSkip url = true
        · rw [if_pos hsk] at h
          exact Or.inr (Or.inl ⟨hv, hsk, (Option.some_inj.mp h).symm⟩)
        · rw [if_neg hsk] at h
          cases hf : web.fetch url with
          | none =>
            rw [hf] at h
            exact Or.inr (Or.inr (Or.inl
              ⟨hv, Bool.not_eq_true _ ▸ hsk, rfl, (Option.some_inj.mp h).symm⟩))
          | some d =>
            rw [hf] at h
            exact Or.inr (Or.inr (Or.inr
              ⟨d, hv, Bool.not_eq_true _ ▸ hsk, rfl, (Option.some_inj.mp h).symm⟩))
    · rw [if_neg hlt] at h
      exact absurd h (by simp)

/-- A successful step either fetches a page (growing `visited` under the
budget guard) or shortens the queue. -/
theorem crawlStep_progress {web : Web} {rd : String} {fe : Bool} {mp : Nat}
    {s s2 : CrawlState} (h : crawlStep web rd fe mp s = some s2) :
    (s2.visited.length = s.visited.length + 1 ∧ s.visited.length < mp) ∨
    (s2.visited.length = s.visited.length ∧
      s2.toVisit.length < s.toVisit.length ∧ s.visited.length < mp) := by
  obtain ⟨url, rest, htv, hlt, hcases⟩ := crawlStep_some h
  rcases hcases with ⟨_, rfl⟩ | ⟨_, _, rfl⟩ | ⟨_, _, _, rfl⟩ | ⟨d, _, _, _, rfl⟩
  · right; simp [htv, hlt]
  · right; simp [htv, hlt]
  · right; simp [htv, hlt]
  · left; simp [hlt]

/-- The crawl loop: iterate `crawlStep` to termination.  Terminates because
each step either strictly shrinks the remaining budget or, keeping the
budget, strictly shrinks the queue. -/
def crawlLoop (web : Web) (rd : String) (fe : Bool) (mp : Nat)
    (s : CrawlState) : CrawlState :=
  match h : crawlStep web rd fe mp s with
  | none => s
  | some s2 => crawlLoop web rd fe mp s2
termination_by (mp - s.visited.length, s.toVisit.length)
decreasing_by
  rcases crawlStep_progress h with ⟨h1, h2⟩ | ⟨h1, h2, h3⟩
  · exact Prod.Lex.left _ _ (by omega)
  · rw [show mp - s2.visited.length = mp - s.visited.length from by omega]
    exact Prod.Lex.right _ h2

/-- Exit equation of the loop. -/
theorem crawlLoop_none {web : Web} {rd : String} {fe : Bool} {mp : Nat}
    {s : CrawlState} (h : crawlStep web rd fe mp s = none) :
    crawlLoop web rd fe mp s = s := by
  unfold crawlLoop
  rw [h]

/-- Step equation of the loop. -/
theorem crawlLoop_step {web : Web} {rd : String} {fe : Bool} {mp : Nat}
    {s s2 : CrawlState} (h : crawlStep web rd fe mp s = some s2) :
    crawlLoop web rd fe mp s = crawlLoop web rd fe mp s2 := by
  conv_lhs => unfold crawlLoop
  rw [h]

/-- Any property preserved by `crawlStep` holds of the loop's result. -/
theorem crawlLoop_inv (web : Web) (rd : String) (fe : Bool) (mp : Nat)
    (P : CrawlState → Prop)
    (hstep : ∀ s s2, crawlStep web rd fe mp s = some s2 → P s → P s2) :
    ∀ s, P s → P (crawlLoop web rd fe mp s) := by
  intro s
  induction s using crawlLoop.induct web rd fe mp with
  | case1 s hnone => intro hP; rwa [crawlLoop_none hnone]
  | case2 s s2 hsome ih =>
    intro hP
    rw [crawlLoop_step hsome]
    exact ih (hstep s s2 hsome hP)

/-- The budget clamp of `crawl_docs` (line 70):
`max_pages = min(max(max_pages, 1), 20)`.  Python `int` is `Int`. -/
def clampMaxPages (mp : Int) : Int := min (max mp 1) 20

/-- Initial crawl state (lines 71–73): nothing visited, frontier
`[root_url]`, no pages, no fetch attempts. -/
def initState (root_url : String) : CrawlState := ⟨[], [root_url], [], []⟩

/-- Final loop state of `crawl_docs(root_url, max_pages, follow_external)`:
the loop runs with root domain `urlparse(root_url).netloc` and the clamped
budget. -/
def crawlFinal (web : Web) (root_url : String) (max_pages : Int)
    (follow_external : Bool) : CrawlState :=
  crawlLoop web (urlparse root_url).netloc follow_external
    (clampMaxPages max_pages).toNat (initState root_url)

/-- The fetched pages `(url, title, content)` of a crawl, in fetch order. -/
def crawlPages (web : Web) (root_url : String) (max_pages : Int)
    (follow_external : Bool) : List (String × String × String) :=
  (crawlFinal web root_url max_pages follow_external).pages

/-- The fetch-attempt trace of a crawl. -/
def crawlTrace (web : Web) (root_url : String) (max_pages : Int)
    (follow_external : Bool) : List String :=
  (crawlFinal web root_url max_pages follow_external).trace

/-- The visited set of a crawl (a duplicate-free list in fetch order). -/
def crawlVisited (web : Web) (root_url : String) (max_pages : Int)
    (follow_external : Bool) : List String :=
  (crawlFinal web root_url max_pages follow_external).visited

/-! ### Output assembly of `crawl_docs` (lines 131–155). -/

/-- Python `pre in s`-style prefix test, `s.startswith(pre)`. -/
def strStartsWith (s pre : String) : Bool :=
  pre.data.isPrefixOf s.data

/-- Python `s.split("\n")` on character lists. -/
def splitLinesAux (cur : List Char) : List Char → List (List Char)
  | [] => [cur.reverse]
  | c :: cs =>
    if c = '\n' then cur.reverse :: splitLinesAux [] cs
    else splitLinesAux (c :: cur) cs

/-- Python `content.split("\n")`. -/
def pyLines (s : String) : List String :=
  (splitLinesAux [] s.data).map String.mk

/-- Python `"\n".join(lines)`. -/
def strJoinNL (ls : List String) : String :=
  match ls with
  | [] => ""
  | x :: xs => xs.foldl (fun acc y => acc ++ "\n" ++ y) x

/-- Anchor slug (line 142):
`title.lower().replace(" ", "-").replace("/", "-")[:50]`. -/
def slugAnchor (title : String) : String :=
  String.mk (((pyLower title).data.map
    (fun c => if c = ' ' then '-' else if c = '/' then '-' else c)).take 50)

/-- Strip the attribution header from a page body (lines 147–152): drop
everything up to and including the first line starting `"> Source:"`. -/
def stripSourceHeader (content : String) : String :=
  let lines := pyLines content
  let start :=
    match lines.findIdx? (fun l => strStartsWith l "> Source:") with
    | some j => j + 1
    | none => 0
  strJoinNL (lines.drop start)

/-- Python `title or url`. -/
def titleOrUrl (title url : String) : String :=
  if title ≠ "" then title else url

/-- The combined markdown document (lines 131–155): TOC header lines, one
TOC entry per page, then per page a synthesized header plus the stripped
body, all joined by newlines. -/
def renderDoc (root_url : String) (max_pages : Nat)
    (pages : List (String × String × String)) : String :=
  let tocHead := ["# Documentation\n",
    "> Crawled from: " ++ root_url ++ "\n",
    "> Pages: " ++ Nat.repr pages.length ++ "/" ++ Nat.repr max_pages ++ "\n",
    "## Table of Contents\n"]
  let tocEntries := pages.enum.map (fun p =>
    Nat.repr (p.1 + 1) ++ ". [" ++ titleOrUrl p.2.2.1 p.2.1 ++ "](#" ++
      slugAnchor p.2.2.1 ++ ")")
  let contentLines := pages.enum.foldr (fun p acc =>
    ("\n---\n\n## " ++ Nat.repr (p.1 + 1) ++ ". " ++ titleOrUrl p.2.2.1 p.2.1 ++
      "\n\n> Source: " ++ p.2.1 ++ "\n\n") :: stripSourceHeader p.2.2.2 :: acc) []
  strJoinNL (tocHead ++ tocEntries) ++ "\n" ++ strJoinNL contentLines

/-- `crawl_docs` itself: run the loop; raise
`CrawlError(root_url, "No pages could be crawled")` (modelled as
`Except.error (url, reason)`) iff no page was fetched, else return the
rendered document. -/
def crawlDocs (web : Web) (root_url : String) (max_pages : Int)
    (follow_external : Bool) : Except (String × String) String :=
  let ps := crawlPages web root_url max_pages follow_external
  if ps = [] then Except.error (root_url, "No pages could be crawled")
  else Except.ok (renderDoc root_url (clampMaxPages max_pages).toNat ps)

/-- Spec-side predicate (§4.1's words): a documentation hint token occurs in
the URL's *path* component. -/
def pathHasHint (link : String) : Bool :=
  docHints.any (fun t => containsSub (pyLower (urlparse link).path) t)

/-! ### Concrete webs used to instantiate theorems

`webA`: root `http://a/r` (fetch succeeds) links to `http://a/f` (fetch
always fails) and `http://a/p` (succeeds); `http://a/p` links to
`http://a/f` again, so the failing URL is rediscovered after its first
failed attempt. -/

/-- Small concrete web with a permanently failing URL that is rediscovered
by a later page. -/
def webA : Web where
  fetch := fun u =>
    if u = "http://a/r" then some ⟨"R", "cr"⟩
    else if u = "http://a/p" then some ⟨"P", "cp"⟩
    else none
  links := fun u =>
    if u = "http://a/r" then ["http://a/f", "http://a/p"]
    else if u = "http://a/p" then ["http://a/f"]
    else []

/-- The run of `crawl_docs` on `webA` from `http://a/r` with budget 5,
computed step by step: fetch `r` (discovering `f`, `p`), fail on `f`,
fetch `p` (rediscovering `f` — it was never marked visited), fail on `f`
again, then the frontier is empty. -/
theorem webA_final :
    crawlFinal webA "http://a/r" 5 false =
      ⟨["http://a/r", "http://a/p"], [],
       [("http://a/r", "R", "cr"), ("http://a/p", "P", "cp")],
       ["http://a/r", "http://a/f", "http://a/p", "http://a/f"]⟩ := by
  have e0 : crawlFinal webA "http://a/r" 5 false =
      crawlLoop webA "a" false 5 ⟨[], ["http://a/r"], [], []⟩ := rfl
  have h1 : crawlStep webA "a" false 5 ⟨[], ["http://a/r"], [], []⟩ =
      some ⟨["http://a/r"], ["http://a/f", "http://a/p"],
        [("http://a/r", "R", "cr")], ["http://a/r"]⟩ := by decide
  have h2 : crawlStep webA "a" false 5 ⟨["http://a/r"],
      ["http://a/f", "http://a/p"], [("http://a/r", "R", "cr")],
      ["http://a/r"]⟩ =
      some ⟨["http://a/r"], ["http://a/p"], [("http://a/r", "R", "cr")],
        ["http://a/r", "http://a/f"]⟩ := by decide
  have h3 : crawlStep webA "a" false 5 ⟨["http://a/r"], ["http://a/p"],
      [("http://a/r", "R", "cr")], ["http://a/r", "http://a/f"]⟩ =
      some ⟨["http://a/r", "http://a/p"], ["http://a/f"],
        [("http://a/r", "R", "cr"), ("http://a/p", "P", "cp")],
        ["http://a/r", "http://a/f", "http://a/p"]⟩ := by decide
  have h4 : crawlStep webA "a" false 5 ⟨["http://a/r", "http://a/p"],
      ["http://a/f"], [("http://a/r", "R", "cr"), ("http://a/p", "P", "cp")],
      ["http://a/r", "http://a/f", "http://a/p"]⟩ =
      some ⟨["http://a/r", "http://a/p"], [],
        [("http://a/r", "R", "cr"), ("http://a/p", "P", "cp")],
        ["http://a/r", "http://a/f", "http://a/p", "http://a/f"]⟩ := by decide
  have h5 : crawlStep webA "a" false 5 ⟨["http://a/r", "http://a/p"], [],
      [("http://a/r", "R", "cr"), ("http://a/p", "P", "cp")],
      ["http://a/r", "http://a/f", "http://a/p", "http://a/f"]⟩ = none := by
    decide
  rw [e0, crawlLoop_step h1, crawlLoop_step h2, crawlLoop_step h3,
    crawlLoop_step h4, crawlLoop_none h5]

/-- Pages of the `webA` crawl. -/
theorem webA_pages :
    crawlPages webA "http://a/r" 5 false =
      [("http://a/r", "R", "cr"), ("http://a/p", "P", "cp")] := by
  unfold crawlPages
  rw [webA_final]

/-- A web whose root domain itself contains a hint token: every discovered
link is doc-hinted by its netloc alone. -/
def webB : Web where
  fetch := fun u =>
    if u = "https://docs.example.com/start" then some ⟨"S", "cs"⟩ else none
  links := fun u =>
    if u = "https://docs.example.com/start" then
      ["https://docs.example.com/alpha", "https://docs.example.com/install"]
    else []

/-! ## Helper lemmas for the crawl invariants -/

/-- `enqueueLink` with `follow_external=false` never inserts a link whose
domain differs from the root domain. -/
theorem enqueueLink_netloc {rd : String} {vis tv : List String} {link : String}
    (htv : ∀ u ∈ tv, (urlparse u).netloc = rd) :
    ∀ u ∈ enqueueLink rd false vis tv link, (urlparse u).netloc = rd := by
  intro u hu
  unfold enqueueLink at hu
  by_cases h1 : link ∈ vis ∨ link ∈ tv
  · rw [if_pos h1] at hu; exact htv u hu
  · rw [if_neg h1] at hu
    by_cases h2 : false = false ∧ (urlparse link).netloc ≠ rd
    · rw [if_pos h2] at hu; exact htv u hu
    · rw [if_neg h2] at hu
      have hd : (urlparse link).netloc = rd := by
        by_contra hc
        exact h2 ⟨rfl, hc⟩
      by_cases h3 : isDocHint link = true
      · rw [if_pos h3] at hu
        rcases List.mem_cons.mp hu with rfl | hu
        · exact hd
        · exact htv u hu
      · rw [if_neg h3] at hu
        rcases List.mem_append.mp hu with hu | hu
        · exact htv u hu
        · rcases List.mem_singleton.mp hu with rfl
          exact hd

/-- Batch version of `enqueueLink_netloc`. -/
theorem enqueueLinks_netloc {rd : String} {vis : List String} :
    ∀ (links tv : List String), (∀ u ∈ tv, (urlparse u).netloc = rd) →
      ∀ u ∈ enqueueLinks rd false vis tv links, (urlparse u).netloc = rd := by
  intro links
  induction links with
  | nil => exact fun tv htv => htv
  | cons l ls ih =>
    intro tv htv u hu
    rw [enqueueLinks, List.foldl_cons] at hu
    exact ih (enqueueLink rd false vis tv l) (enqueueLink_netloc htv) u hu

/-- Loop invariant for the budget: the page list never outgrows the visited
list, and the visited list never outgrows the budget. -/
theorem crawl_budget_invariant (web : Web) (rd : String) (fe : Bool) (mp : Nat) :
    ∀ s s2, crawlStep web rd fe mp s = some s2 →
      (s.pages.length ≤ s.visited.length ∧ s.visited.length ≤ mp) →
      (s2.pages.length ≤ s2.visited.length ∧ s2.visited.length ≤ mp) := by
  intro s s2 h hP
  obtain ⟨url, rest, htv, hlt, hc⟩ := crawlStep_some h
  rcases hc with ⟨_, rfl⟩ | ⟨_, _, rfl⟩ | ⟨_, _, _, rfl⟩ | ⟨d, _, _, _, rfl⟩
  · exact hP
  · exact hP
  · exact hP
  · refine ⟨?_, ?_⟩ <;> simp only [List.length_append, List.length_singleton]
    · omega
    · omega

/-- Loop invariant for page provenance: every recorded page was produced by
a successful fetch of its URL. -/
theorem crawl_pages_invariant (web : Web) (rd : String) (fe : Bool) (mp : Nat) :
    ∀ s s2, crawlStep web rd fe mp s = some s2 →
      (∀ pg ∈ s.pages, web.fetch pg.1 = some ⟨pg.2.1, pg.2.2⟩) →
      (∀ pg ∈ s2.pages, web.fetch pg.1 = some ⟨pg.2.1, pg.2.2⟩) := by
  intro s s2 h hP
  obtain ⟨url, rest, htv, hlt, hc⟩ := crawlStep_some h
  rcases hc with ⟨_, rfl⟩ | ⟨_, _, rfl⟩ | ⟨_, _, _, rfl⟩ | ⟨d, _, _, hf, rfl⟩
  · exact hP
  · exact hP
  · exact hP
  · intro pg hpg
    rcases List.mem_append.mp hpg with hpg | hpg
    · exact hP pg hpg
    · rcases List.mem_singleton.mp hpg with rfl
      exact hf

/-- Loop invariant for the visited set: only successfully fetched URLs are
ever marked visited. -/
theorem crawl_visited_invariant (web : Web) (rd : String) (fe : Bool) (mp : Nat) :
    ∀ s s2, crawlStep web rd fe mp s = some s2 →
      (∀ v ∈ s.visited, (web.fetch v).isSome = true) →
      (∀ v ∈ s2.visited, (web.fetch v).isSome = true) := by
  intro s s2 h hP
  obtain ⟨url, rest, htv, hlt, hc⟩ := crawlStep_some h
  rcases hc with ⟨_, rfl⟩ | ⟨_, _, rfl⟩ | ⟨_, _, _, rfl⟩ | ⟨d, _, _, hf, rfl⟩
  · exact hP
  · exact hP
  · exact hP
  · intro v hv
    rcases List.mem_append.mp hv with hv | hv
    · exact hP v hv
    · rcases List.mem_singleton.mp hv with rfl
      rw [hf]
      rfl

/-- Loop invariant for the attempt trace of a URL whose fetch succeeds: it
is attempted exactly when it gets marked visited, hence at most once. -/
theorem crawl_trace_invariant (web : Web) (rd : String) (fe : Bool) (mp : Nat)
    (u : String) (hu : (web.fetch u).isSome = true) :
    ∀ s s2, crawlStep web rd fe mp s = some s2 →
      ((u ∈ s.visited → s.trace.count u = 1) ∧
        (u ∉ s.visited → s.trace.count u = 0)) →
      ((u ∈ s2.visited → s2.trace.count u = 1) ∧
        (u ∉ s2.visited → s2.trace.count u = 0)) := by
  intro s s2 h hP
  obtain ⟨url, rest, htv, hlt, hc⟩ := crawlStep_some h
  rcases hc with ⟨_, rfl⟩ | ⟨_, _, rfl⟩ | ⟨_, _, hf, rfl⟩ | ⟨d, hnv, _, hf, rfl⟩
  · exact hP
  · exact hP
  · have hne : u ≠ url := by
      intro he
      rw [he, hf] at hu
      exact Bool.noConfusion hu
    have hne' : url ≠ u := Ne.symm hne
    have hcnt : List.count u (s.trace ++ [url]) = List.count u s.trace := by
      simp [List.count_append, List.count_cons, beq_iff_eq, hne']
    constructor <;> intro hmem
    · rw [hcnt]; exact hP.1 hmem
    · rw [hcnt]; exact hP.2 hmem
  · by_cases he : u = url
    · subst he
      constructor
      · intro _
        have h0 := hP.2 hnv
        simp [List.count_append, List.count_cons, h0]
      · intro hmem
        exact absurd (List.mem_append.mpr (Or.inr (List.mem_singleton.mpr rfl)))
          hmem
    · have hne' : url ≠ u := Ne.symm he
      have hmem_iff : u ∈ s.visited ++ [url] ↔ u ∈ s.visited := by
        simp [List.mem_append, he]
      have hcnt : List.count u (s.trace ++ [url]) = List.count u s.trace := by
        simp [List.count_append, List.count_cons, beq_iff_eq, hne']
      constructor <;> intro hmem
      · rw [hcnt]; exact hP.1 (hmem_iff.mp hmem)
      · rw [hcnt]; exact hP.2 (fun hc => hmem (hmem_iff.mpr hc))

/-- Loop invariant for the domain policy (`follow_external = false`): every
queued URL and every fetched page stays on the root domain. -/
theorem crawl_domain_invariant (web : Web) (rd : String) (mp : Nat) :
    ∀ s s2, crawlStep web rd false mp s = some s2 →
      ((∀ u ∈ s.toVisit, (urlparse u).netloc = rd) ∧
        (∀ pg ∈ s.pages, (urlparse pg.1).netloc = rd)) →
      ((∀ u ∈ s2.toVisit, (urlparse u).netloc = rd) ∧
        (∀ pg ∈ s2.pages, (urlparse pg.1).netloc = rd)) := by
  intro s s2 h hP
  obtain ⟨url, rest, htv, hlt, hc⟩ := crawlStep_some h
  have hrest : ∀ u ∈ rest, (urlparse u).netloc = rd := by
    intro u hu
    exact hP.1 u (htv ▸ List.mem_cons_of_mem url hu)
  have hurl : (urlparse url).netloc = rd :=
    hP.1 url (htv ▸ List.mem_cons_self url rest)
  rcases hc with ⟨_, rfl⟩ | ⟨_, _, rfl⟩ | ⟨_, _, _, rfl⟩ | ⟨d, _, _, _, rfl⟩
  · exact ⟨hrest, hP.2⟩
  · exact ⟨hrest, hP.2⟩
  · exact ⟨hrest, hP.2⟩
  · refine ⟨enqueueLinks_netloc (web.links url) rest hrest, ?_⟩
    intro pg hpg
    rcases List.mem_append.mp hpg with hpg | hpg
    · exact hP.2 pg hpg
    · rcases List.mem_singleton.mp hpg with rfl
      exact hurl

/-! ## Helper lemmas for link extraction -/

/-- `keepFirstAux` only consults membership of the seen list. -/
theorem keepFirstAux_congr (s1 s2 : List String) (hs : ∀ a, a ∈ s1 ↔ a ∈ s2) :
    ∀ l, keepFirstAux s1 l = keepFirstAux s2 l := by
  intro l
  induction l generalizing s1 s2 with
  | nil => rfl
  | cons x xs ih =>
    simp only [keepFirstAux]
    by_cases hx : x ∈ s1
    · rw [if_pos hx, if_pos ((hs x).mp hx)]
      exact ih s1 s2 hs
    · rw [if_neg hx, if_neg (fun hc => hx ((hs x).mpr hc))]
      rw [ih (x :: s1) (x :: s2) (fun a => by simp [List.mem_cons, hs a])]

/-- The fused filter-and-dedup fold used by `get_same_domain_links` equals
filtering first and then deduplicating by first occurrence. -/
theorem foldlDedup_eq (f : String → Option String) :
    ∀ (l acc : List String),
      l.foldl (fun links href =>
        match f href with
        | none => links
        | some c => if c ∈ links then links else links ++ [c]) acc =
      acc ++ keepFirstAux acc (l.filterMap f) := by
  intro l
  induction l with
  | nil => intro acc; simp [keepFirstAux]
  | cons x xs ih =>
    intro acc
    rw [List.foldl_cons, List.filterMap_cons]
    cases hf : f x with
    | none => simpa [hf] using ih acc
    | some c =>
      simp only [hf]
      by_cases hc : c ∈ acc
      · rw [if_pos hc, ih acc]
        simp [keepFirstAux, hc]
      · rw [if_neg hc, ih (acc ++ [c])]
        simp only [keepFirstAux, hc, if_neg]
        rw [keepFirstAux_congr (acc ++ [c]) (c :: acc)
          (fun a => by simp [List.mem_append, List.mem_cons, or_comm]) _]
        simp [keepFirstAux, hc]

/-- Elements produced by `keepFirstAux` were not already seen. -/
theorem keepFirstAux_not_mem_seen (x : String) :
    ∀ (l seen : List String), x ∈ keepFirstAux seen l → x ∉ seen := by
  intro l
  induction l with
  | nil => intro seen h; exact absurd h (List.not_mem_nil x)
  | cons y ys ih =>
    intro seen h
    simp only [keepFirstAux] at h
    by_cases hy : y ∈ seen
    · rw [if_pos hy] at h
      exact ih seen h
    · rw [if_neg hy] at h
      rcases List.mem_cons.mp h with rfl | h
      · exact hy
      · intro hx
        exact ih (y :: seen) h (List.mem_cons_of_mem y hx)

/-- `keepFirstAux` returns a duplicate-free list. -/
theorem keepFirstAux_nodup :
    ∀ (l seen : List String), (keepFirstAux seen l).Nodup := by
  intro l
  induction l with
  | nil => intro seen; exact List.nodup_nil
  | cons y ys ih =>
    intro seen
    simp only [keepFirstAux]
    by_cases hy : y ∈ seen
    · rw [if_pos hy]; exact ih seen
    · rw [if_neg hy]
      refine List.nodup_cons.mpr ⟨?_, ih (y :: seen)⟩
      intro hc
      exact keepFirstAux_not_mem_seen y ys (y :: seen) hc
        (List.mem_cons_self y seen)

/-- `keepFirstAux` only returns elements of its input. -/
theorem keepFirstAux_subset (x : String) :
    ∀ (l seen : List String), x ∈ keepFirstAux seen l → x ∈ l := by
  intro l
  induction l with
  | nil => intro seen h; exact absurd h (List.not_mem_nil x)
  | cons y ys ih =>
    intro seen h
    simp only [keepFirstAux] at h
    by_cases hy : y ∈ seen
    · rw [if_pos hy] at h
      exact List.mem_cons_of_mem y (ih seen h)
    · rw [if_neg hy] at h
      rcases List.mem_cons.mp h with rfl | h
      · exact List.mem_cons_self x ys
      · exact List.mem_cons_of_mem y (ih (y :: seen) h)

/-- `get_same_domain_links` = filter the anchors, then first-occurrence
deduplication. -/
theorem getSameDomainLinks_eq (join : String → String → String) (base : String)
    (anchors : List String) :
    getSameDomainLinks join base anchors =
      keepFirst (anchors.filterMap (cleanLink join base)) := by
  unfold getSameDomainLinks keepFirst
  simpa using foldlDedup_eq (cleanLink join base) anchors []

/-- Shape of a kept link. -/
theorem cleanLink_some {join : String → String → String} {base href u : String}
    (h : cleanLink join base href = some u) :
    ((urlparse (join base href)).scheme = "http" ∨
      (urlparse (join base href)).scheme = "https") ∧
    (urlparse (join base href)).path ≠ "" ∧
    (urlparse (join base href)).netloc = (urlparse base).netloc ∧
    u = (urlparse (join base href)).scheme ++ "://" ++
      (urlparse (join base href)).netloc ++ (urlparse (join base href)).path := by
  unfold cleanLink at h
  by_cases hc : (urlparse (join base href)).netloc = (urlparse base).netloc ∧
      ((urlparse (join base href)).scheme = "http" ∨
        (urlparse (join base href)).scheme = "https") ∧
      (urlparse (join base href)).path ≠ ""
  · rw [if_pos hc] at h
    exact ⟨hc.2.1, hc.2.2, hc.1, (Option.some_inj.mp h).symm⟩
  · rw [if_neg hc] at h
    exact absurd h (by simp)

/-! ## Helper lemmas for the fetch pipeline -/

/-- On a permanently failing URL the retry loop runs all its iterations:
starting at attempt `a` with `n + 1` iterations left, it makes `n + 1`
further attempts and sleeps `2^a, …, 2^(a+n-1)`. -/
theorem fetchGo_fail (ad : Nat → Option Doc) (had : ∀ k, ad k = none) :
    ∀ (n a : Nat), fetchGo ad a (n + 1) =
      ⟨a + n + 1, (List.range' a n).map (fun k => 2 ^ k), none⟩ := by
  intro n
  induction n with
  | zero => intro a; simp [fetchGo, had a]
  | succ m ih =>
    intro a
    rw [fetchGo]
    simp only [had a]
    rw [if_neg (Nat.succ_ne_zero m)]
    rw [ih (a + 1)]
    rw [List.range'_succ]
    simp only [List.map_cons]
    congr 1
    omega

/-! ## Helper lemmas for the content digest -/

/-- Two hex characters per byte. -/
theorem hexList_length : ∀ l : List Nat, (hexList l).length = 2 * l.length := by
  intro l
  induction l with
  | nil => rfl
  | cons b bs ih =>
    simp only [hexList, List.length_cons, ih]
    omega

/-- A SHA-256 digest is 32 bytes. -/
theorem sha256_length (msg : List Nat) : (sha256 msg).length = 32 := rfl

/-- The `monitor_changes` digest is 16 characters long. -/
theorem contentDigest_length (s : String) : (contentDigest s).length = 16 := by
  show ((hexList (sha256 (utf8Bytes s))).take 16).length = 16
  rw [List.length_take, hexList_length, sha256_length]
  decide

/-- The `monitor_changes` digest is never the empty string. -/
theorem contentDigest_ne_empty (s : String) : contentDigest s ≠ "" := by
  intro h
  have hl := contentDigest_length s
  rw [h] at hl
  exact absurd hl (by decide)

/-! ## Claim theorems -/

/-- C1: for every crawl run of `crawl_docs`, over every link graph
(including cyclic or unbounded ones), the number of fetched pages never
exceeds the (clamped) page budget, and for an in-range `max_pages ∈ [1,20]`
it never exceeds `max_pages` itself. -/
theorem claim1_budget_respected (web : Web) (root : String) (mp : Int) (fe : Bool) :
    (crawlPages web root mp fe).length ≤ (clampMaxPages mp).toNat ∧
    (1 ≤ mp → mp ≤ 20 → ((crawlPages web root mp fe).length : Int) ≤ mp) := by
  have hinv := crawlLoop_inv web (urlparse root).netloc fe (clampMaxPages mp).toNat
    (fun s => s.pages.length ≤ s.visited.length ∧
      s.visited.length ≤ (clampMaxPages mp).toNat)
    (crawl_budget_invariant web (urlparse root).netloc fe (clampMaxPages mp).toNat)
    (initState root) ⟨by simp [initState], by simp [initState]⟩
  have hmain : (crawlPages web root mp fe).length ≤ (clampMaxPages mp).toNat := by
    unfold crawlPages crawlFinal
    exact le_trans hinv.1 hinv.2
  refine ⟨hmain, fun h1 h2 => ?_⟩
  have hcl : clampMaxPages mp = mp := by
    simp only [clampMaxPages, min_def, max_def]
    split_ifs <;> omega
  rw [hcl] at hmain
  omega

/-- C1 witness: on the concrete crawl of `webA` with budget 5 the in-range
bound is discharged at `max_pages = 5`. -/
theorem claim1_witness :
    ((1 : Int) ≤ 5 ∧ (5 : Int) ≤ 20) ∧
    ((crawlPages webA "http://a/r" 5 false).length : Int) ≤ 5 :=
  ⟨⟨by norm_num, by norm_num⟩,
   (claim1_budget_respected webA "http://a/r" 5 false).2 (by norm_num) (by norm_num)⟩

/-- C2: `crawl_docs` raises `CrawlError` iff zero pages were fetched; every
recorded page is a successfully fetched one, and when at least one page was
fetched the crawl returns the rendered document of exactly the fetched
subset (per-page failures never propagate — the loop is a total function,
and the only error exit is the empty-pages check). -/
theorem claim2_error_iff_no_pages (web : Web) (root : String) (mp : Int) (fe : Bool) :
    ((∃ e, crawlDocs web root mp fe = Except.error e) ↔
      crawlPages web root mp fe = []) ∧
    (∀ pg ∈ crawlPages web root mp fe, web.fetch pg.1 = some ⟨pg.2.1, pg.2.2⟩) ∧
    (crawlPages web root mp fe ≠ [] →
      crawlDocs web root mp fe = Except.ok
        (renderDoc root (clampMaxPages mp).toNat (crawlPages web root mp fe))) := by
  refine ⟨?_, ?_, ?_⟩
  · by_cases hps : crawlPages web root mp fe = []
    · simp [crawlDocs, hps]
    · simp [crawlDocs, hps]
  · have hinv := crawlLoop_inv web (urlparse root).netloc fe (clampMaxPages mp).toNat
      (fun s => ∀ pg ∈ s.pages, web.fetch pg.1 = some ⟨pg.2.1, pg.2.2⟩)
      (crawl_pages_invariant web (urlparse root).netloc fe (clampMaxPages mp).toNat)
      (initState root) (by simp [initState])
    unfold crawlPages crawlFinal
    exact hinv
  · intro hne
    simp [crawlDocs, hne]

/-- C2 witness: the `webA` crawl (which contains a failing page
`http://a/f`) still returns a rendered document. -/
theorem claim2_witness :
    crawlDocs webA "http://a/r" 5 false =
      Except.ok (renderDoc "http://a/r" (clampMaxPages 5).toNat
        (crawlPages webA "http://a/r" 5 false)) :=
  (claim2_error_iff_no_pages webA "http://a/r" 5 false).2.2
    (by rw [webA_pages]; decide)

/-- C3 counterexample: in the `webA` crawl the URL `http://a/f`, whose
fetch permanently fails, is dequeued and fetched twice — it is *not*
marked visited on the failed attempt, and is re-enqueued when `http://a/p`
rediscovers it, contradicting the claim that a URL is marked visited on
every fetch attempt and a permanently failing URL is never retried. -/
theorem claim3_counterexample :
    webA.fetch "http://a/f" = none ∧
    List.count "http://a/f" (crawlTrace webA "http://a/r" 5 false) = 2 := by
  constructor
  · rfl
  · unfold crawlTrace
    rw [webA_final]
    decide

/-- C3 (amended): a dequeued URL is marked visited only when its fetch
succeeds; a URL whose fetch succeeds is attempted at most once per crawl,
and everything marked visited was successfully fetched.  (A URL whose fetch
permanently fails is never marked visited and may be fetched again when
rediscovered, as the counterexample shows.) -/
theorem claim3_amended (web : Web) (root : String) (mp : Int) (fe : Bool)
    (u : String) (hu : (web.fetch u).isSome = true) :
    List.count u (crawlTrace web root mp fe) ≤ 1 ∧
    (∀ v ∈ crawlVisited web root mp fe, (web.fetch v).isSome = true) := by
  constructor
  · have hinv := crawlLoop_inv web (urlparse root).netloc fe (clampMaxPages mp).toNat
      (fun s => (u ∈ s.visited → s.trace.count u = 1) ∧
        (u ∉ s.visited → s.trace.count u = 0))
      (crawl_trace_invariant web (urlparse root).netloc fe
        (clampMaxPages mp).toNat u hu)
      (initState root) ⟨by simp [initState], by simp [initState]⟩
    unfold crawlTrace crawlFinal
    rcases hinv with ⟨h1, h2⟩
    by_cases hv : u ∈ (crawlLoop web (urlparse root).netloc fe
        (clampMaxPages mp).toNat (initState root)).visited
    · rw [h1 hv]
    · rw [h2 hv]
      omega
  · have hinv := crawlLoop_inv web (urlparse root).netloc fe (clampMaxPages mp).toNat
      (fun s => ∀ v ∈ s.visited, (web.fetch v).isSome = true)
      (crawl_visited_invariant web (urlparse root).netloc fe (clampMaxPages mp).toNat)
      (initState root) (by simp [initState])
    unfold crawlVisited crawlFinal
    exact hinv

/-- C3 witness: the amended statement instantiated on `webA` at the
successfully fetched root URL. -/
theorem claim3_witness :
    (webA.fetch "http://a/r").isSome = true ∧
    (List.count "http://a/r" (crawlTrace webA "http://a/r" 5 false) ≤ 1 ∧
      ∀ v ∈ crawlVisited webA "http://a/r" 5 false,
        (webA.fetch v).isSome = true) :=
  ⟨by decide, claim3_amended webA "http://a/r" 5 false "http://a/r" (by decide)⟩

/-- C4: for every syntactically valid URL whose fetch fails on every
attempt, `ScraperAdapter.fetch(url, retry)` makes exactly `retry + 1`
attempts, sleeping `2^attempt` (attempt starting at 0) between consecutive
attempts — a non-decreasing backoff — before reporting failure. -/
theorem claim4_retry_bound (ad : Nat → Option Doc) (url : String) (retry : Nat)
    (hvalid : validUrl url = true) (hfail : ∀ k, ad k = none) :
    (fetchPipeline ad url retry).attempts = retry + 1 ∧
    (fetchPipeline ad url retry).delays = (List.range retry).map (fun k => 2 ^ k) ∧
    List.Chain' (· ≤ ·) (fetchPipeline ad url retry).delays ∧
    (fetchPipeline ad url retry).outcome = none := by
  have hv := hvalid
  unfold validUrl at hv
  simp only [Bool.and_eq_true, bne_iff_ne, ne_eq] at hv
  obtain ⟨⟨h1, h2⟩, h3⟩ := hv
  have hfp : fetchPipeline ad url retry = fetchGo ad 0 (retry + 1) := by
    unfold fetchPipeline
    rw [if_neg h1, if_neg (by simp [h2, h3])]
  rw [hfp, fetchGo_fail ad hfail retry 0]
  refine ⟨?_, ?_, ?_, rfl⟩
  · show 0 + retry + 1 = retry + 1
    omega
  · show (List.range' 0 retry).map (fun k => 2 ^ k) =
      (List.range retry).map (fun k => 2 ^ k)
    rw [List.range_eq_range']
  · show List.Chain' (· ≤ ·) ((List.range' 0 retry).map (fun k => 2 ^ k))
    rw [← List.range_eq_range']
    refine List.Pairwise.chain' ?_
    exact List.Pairwise.map _
      (fun a b hab => Nat.pow_le_pow_right (by norm_num) (le_of_lt hab))
      (List.pairwise_lt_range retry)

/-- C4 witness: a valid URL, an oracle that always fails, `retry = 2`:
three attempts, delays `[1, 2]`. -/
theorem claim4_witness :
    validUrl "http://a/r" = true ∧
    ((fetchPipeline (fun _ => none) "http://a/r" 2).attempts = 2 + 1 ∧
     (fetchPipeline (fun _ => none) "http://a/r" 2).delays =
       (List.range 2).map (fun k => 2 ^ k) ∧
     List.Chain' (· ≤ ·) (fetchPipeline (fun _ => none) "http://a/r" 2).delays ∧
     (fetchPipeline (fun _ => none) "http://a/r" 2).outcome = none) :=
  ⟨by decide,
   claim4_retry_bound (fun _ => none) "http://a/r" 2 (by decide) (fun _ => rfl)⟩

/-- C5: with `follow_external = false`, every fetched page's domain equals
the root URL's domain, over every web and every budget. -/
theorem claim5_domain_policy (web : Web) (root : String) (mp : Int) :
    ∀ pg ∈ crawlPages web root mp false,
      (urlparse pg.1).netloc = (urlparse root).netloc := by
  have hinv := crawlLoop_inv web (urlparse root).netloc false (clampMaxPages mp).toNat
    (fun s => (∀ u ∈ s.toVisit, (urlparse u).netloc = (urlparse root).netloc) ∧
      (∀ pg ∈ s.pages, (urlparse pg.1).netloc = (urlparse root).netloc))
    (crawl_domain_invariant web (urlparse root).netloc (clampMaxPages mp).toNat)
    (initState root) ⟨by simp [initState], by simp [initState]⟩
  unfold crawlPages crawlFinal
  exact hinv.2

/-- C5 witness: the page `http://a/p` fetched by the `webA` crawl is on the
root domain `a`. -/
theorem claim5_witness :
    (urlparse ("http://a/p", "P", "cp").1).netloc =
      (urlparse "http://a/r").netloc :=
  claim5_domain_policy webA "http://a/r" 5 ("http://a/p", "P", "cp")
    (by rw [webA_pages]; decide)

/-- C6 counterexample: supplying the empty string as the previous digest is
treated by the truthiness guard `if previous_content:` as "no baseline":
the check reports `Baseline`, although a digest was supplied and it differs
from the current content's digest, so the claimed classification would
require `Changed`. -/
theorem claim6_counterexample :
    monitorStatus "x" (some "") = ChangeStatus.baseline ∧
    "" ≠ contentDigest "x" ∧
    monitorStatus "x" (some "") ≠ ChangeStatus.changed := by
  refine ⟨rfl, Ne.symm (contentDigest_ne_empty "x"), ?_⟩
  intro h
  exact ChangeStatus.noConfusion h

/-- C6 (amended): the status is `Baseline` when the previous digest is
absent *or empty*; for a non-empty previous digest it is `Unchanged` iff
the digest equals the current content's digest and `Changed` otherwise;
the digest is a deterministic function of the content, so a second check
of identical content against the returned digest reports `Unchanged`. -/
theorem claim6_amended (content : String) (prev : Option String) :
    (prev = none → monitorStatus content prev = ChangeStatus.baseline) ∧
    (prev = some "" → monitorStatus content prev = ChangeStatus.baseline) ∧
    (∀ p, prev = some p → p ≠ "" →
      ((monitorStatus content prev = ChangeStatus.unchanged ↔
          p = contentDigest content) ∧
       (monitorStatus content prev = ChangeStatus.changed ↔
          p ≠ contentDigest content))) ∧
    monitorStatus content (some (contentDigest content)) =
      ChangeStatus.unchanged := by
  refine ⟨?_, ?_, ?_, ?_⟩
  · rintro rfl; rfl
  · rintro rfl; rfl
  · rintro p rfl hp
    show ((if p = "" then ChangeStatus.baseline
        else if p = contentDigest content then ChangeStatus.unchanged
        else ChangeStatus.changed) = ChangeStatus.unchanged ↔
          p = contentDigest content) ∧
      ((if p = "" then ChangeStatus.baseline
        else if p = contentDigest content then ChangeStatus.unchanged
        else ChangeStatus.changed) = ChangeStatus.changed ↔
          p ≠ contentDigest content)
    rw [if_neg hp]
    by_cases hd : p = contentDigest content
    · rw [if_pos hd]
      constructor
      · exact ⟨fun _ => hd, fun _ => rfl⟩
      · exact ⟨fun h => ChangeStatus.noConfusion h, fun h => absurd hd h⟩
    · rw [if_neg hd]
      constructor
      · exact ⟨fun h => ChangeStatus.noConfusion h, fun h => absurd h hd⟩
      · exact ⟨fun _ => hd, fun _ => rfl⟩
  · show (if contentDigest content = "" then ChangeStatus.baseline
        else if contentDigest content = contentDigest content then
          ChangeStatus.unchanged
        else ChangeStatus.changed) = ChangeStatus.unchanged
    rw [if_neg (contentDigest_ne_empty content), if_pos rfl]

/-- C6 witness: a non-empty wrong digest reports `Changed`; the digest of
the same content reports `Unchanged`. -/
theorem claim6_witness :
    (monitorStatus "abc" (some "zz") = ChangeStatus.changed ↔
      "zz" ≠ contentDigest "abc") ∧
    monitorStatus "abc" (some (contentDigest "abc")) = ChangeStatus.unchanged :=
  ⟨((claim6_amended "abc" (some "zz")).2.2.1 "zz" rfl (by decide)).2,
   (claim6_amended "abc" (some "zz")).2.2.2⟩

/-- C8 counterexample: a crawl step on `webB` (root domain
`docs.example.com`) discovers two links whose *paths* contain no hint
token; the claim then requires both at the tail (in discovery order
`alpha, install`), but the code tests the hint tokens against the whole
lower-cased URL, finds `doc` in the netloc, and head-inserts both —
leaving the queue in the order `install, alpha`. -/
theorem claim8_counterexample :
    pathHasHint "https://docs.example.com/alpha" = false ∧
    pathHasHint "https://docs.example.com/install" = false ∧
    crawlStep webB "docs.example.com" false 5
      ⟨[], ["https://docs.example.com/start"], [], []⟩ =
      some ⟨["https://docs.example.com/start"],
        ["https://docs.example.com/install", "https://docs.example.com/alpha"],
        [("https://docs.example.com/start", "S", "cs")],
        ["https://docs.example.com/start"]⟩ ∧
    ["https://docs.example.com/install", "https://docs.example.com/alpha"] ≠
      ["https://docs.example.com/alpha", "https://docs.example.com/install"] := by
  refine ⟨by decide, by decide, by decide, by decide⟩

/-- C8 (amended): a link that survives the dedup and domain filters is
inserted at the head of the queue iff its whole lower-cased URL contains a
hint token (so a token occurring only in the domain also triggers head
insertion), and at the tail otherwise. -/
theorem claim8_amended (rd : String) (vis tv : List String) (link : String)
    (h1 : link ∉ vis) (h2 : link ∉ tv) (h3 : (urlparse link).netloc = rd) :
    enqueueLinks rd false vis tv [link] =
      if isDocHint link = true then link :: tv else tv ++ [link] := by
  unfold enqueueLinks
  rw [List.foldl_cons, List.foldl_nil]
  unfold enqueueLink
  rw [if_neg (by simp [h1, h2]), if_neg (by simp [h3])]

/-- C8 witness: a doc-hinted link on the root domain is head-inserted. -/
theorem claim8_witness :
    ("http://a/doc" ∉ ([] : List String)) ∧
    ((urlparse "http://a/doc").netloc = "a") ∧
    enqueueLinks "a" false [] [] ["http://a/doc"] =
      (if isDocHint "http://a/doc" = true then "http://a/doc" :: []
       else [] ++ ["http://a/doc"]) :=
  ⟨by decide, by decide,
   claim8_amended "a" [] [] "http://a/doc" (by decide) (by decide) (by decide)⟩

/-- C9 counterexample: the standalone `extract_links` report deduplicates
by the `(absoluteURL, anchorText)` *pair* and sorts by anchor text, so the
same absolute URL appears twice (under two different anchor texts) —
contradicting "deduplicated by absolute URL … no absolute URL occurs twice
in the result". -/
theorem claim9_counterexample :
    (extractLinksInternal (fun _ h => h) "https://e.com/"
      [("https://e.com/a", "B"), ("https://e.com/a", "A")]).map Prod.fst =
      ["https://e.com/a", "https://e.com/a"] ∧
    ¬ ((extractLinksInternal (fun _ h => h) "https://e.com/"
      [("https://e.com/a", "B"), ("https://e.com/a", "A")]).map Prod.fst).Nodup := by
  refine ⟨by decide, by decide⟩

/-- C9 (amended): the crawl-time extractor `get_same_domain_links`
satisfies the contract — it returns exactly the first-occurrence
deduplication of the kept (same-domain, `http`/`https`, non-empty-path)
canonical links in document order, hence duplicate-free; the standalone
`extract_links` report does not (see the counterexample). -/
theorem claim9_amended (join : String → String → String) (base : String)
    (anchors : List String) :
    getSameDomainLinks join base anchors =
      keepFirst (anchors.filterMap (cleanLink join base)) ∧
    (getSameDomainLinks join base anchors).Nodup ∧
    (∀ u ∈ getSameDomainLinks join base anchors, ∃ href, href ∈ anchors ∧
      cleanLink join base href = some u ∧
      ((urlparse (join base href)).scheme = "http" ∨
        (urlparse (join base href)).scheme = "https") ∧
      (urlparse (join base href)).path ≠ "" ∧
      (urlparse (join base href)).netloc = (urlparse base).netloc ∧
      u = (urlparse (join base href)).scheme ++ "://" ++
        (urlparse (join base href)).netloc ++ (urlparse (join base href)).path) := by
  have heq := getSameDomainLinks_eq join base anchors
  refine ⟨heq, ?_, ?_⟩
  · rw [heq]
    exact keepFirstAux_nodup _ []
  · intro u hu
    rw [heq] at hu
    have hmem : u ∈ anchors.filterMap (cleanLink join base) :=
      keepFirstAux_subset u _ [] hu
    obtain ⟨href, hhref, hcl⟩ := List.mem_filterMap.mp hmem
    obtain ⟨ha, hb, hc, hd⟩ := cleanLink_some hcl
    exact ⟨href, hhref, hcl, ha, hb, hc, hd⟩

/-- C9 witness: the amended statement applied to a concrete kept link
(query string stripped to its canonical form). -/
theorem claim9_witness :
    ∃ href, href ∈ ["https://e.com/a?x=1"] ∧
      cleanLink (fun _ h => h) "https://e.com/" href = some "https://e.com/a" ∧
      ((urlparse href).scheme = "http" ∨ (urlparse href).scheme = "https") ∧
      (urlparse href).path ≠ "" ∧
      (urlparse href).netloc = (urlparse "https://e.com/").netloc ∧
      "https://e.com/a" = (urlparse href).scheme ++ "://" ++
        (urlparse href).netloc ++ (urlparse href).path :=
  (claim9_amended (fun _ h => h) "https://e.com/" ["https://e.com/a?x=1"]).2.2
    "https://e.com/a" (by decide)

/-- C10: `crawl_docs` clamps any integer `max_pages` to
`min(max(max_pages, 1), 20)` instead of rejecting the call: the crawl with
an out-of-range budget behaves exactly like the crawl with the clamped
in-range budget, which lies between 1 and 20. -/
theorem claim10_clamp (web : Web) (root : String) (mp : Int) (fe : Bool) :
    crawlDocs web root mp fe = crawlDocs web root (clampMaxPages mp) fe ∧
    clampMaxPages mp = min (max mp 1) 20 ∧
    1 ≤ clampMaxPages mp ∧ clampMaxPages mp ≤ 20 := by
  have hid : clampMaxPages (clampMaxPages mp) = clampMaxPages mp := by
    simp only [clampMaxPages, min_def, max_def]
    split_ifs <;> omega
  refine ⟨?_, rfl, ?_, min_le_right _ _⟩
  · unfold crawlDocs crawlPages crawlFinal
    rw [hid]
  · exact le_min (le_max_right mp 1) (by norm_num)

end Webdocx
